import Mathlib

/-!
Shallow embedding of `chainer/datasets/text_dataset.py` (`TextDataset`).

A text file opened for decoded reading is modelled as a `Handle`: the decoded
character stream plus a cursor position.  `Handle.readline` reads up to and
including the next newline character (or to end of stream), `Handle.tell`
reports the cursor, `Handle.seek` moves it — mirroring the `io` text-stream
operations the source uses.  The filesystem is a function from paths to
decoded contents.

`TextDataset.mk?` embeds `TextDataset.__init__`: argument broadcasting,
the configuration checks, the lockstep line-boundary indexing loop
(`buildLoop`, lines 94-114 of the source) and the alignment check.
`TextDataset.get_example`, `_open`, `_close`, `getstate`/`setstate` embed
the remaining methods.  `get_example` additionally reports the number of
seek/read operations performed, so that "performs no I/O" is observable.
-/

/-- A filesystem: maps a path to the decoded character contents of the file. -/
def FileSys : Type := String → List Char

/-- An open text-mode file object: decoded contents plus cursor position. -/
structure Handle where
  content : List Char
  pos : Nat
deriving DecidableEq

instance : Inhabited Handle := ⟨⟨[], 0⟩⟩

/-- Characters of one physical line: everything up to and including the first
newline, or the whole list when no newline occurs (final unterminated line). -/
def takeLine : List Char → List Char
  | [] => []
  | c :: cs => if c = '\n' then [c] else c :: takeLine cs

/-- Characters remaining after one physical line. -/
def dropLine : List Char → List Char
  | [] => []
  | c :: cs => if c = '\n' then cs else dropLine cs

/-- `fp.readline()`: returns the next physical line (empty string at EOF) and
the advanced handle. -/
def Handle.readline (h : Handle) : String × Handle :=
  let line := takeLine (h.content.drop h.pos)
  (String.mk line, ⟨h.content, h.pos + line.length⟩)

/-- `fp.tell()`. -/
def Handle.tell (h : Handle) : Nat := h.pos

/-- `fp.seek(p)`. -/
def Handle.seek (h : Handle) (p : Nat) : Handle := ⟨h.content, p⟩

theorem dropLine_length_le (cs : List Char) : (dropLine cs).length ≤ cs.length := by
  induction cs with
  | nil => simp [dropLine]
  | cons c cs ih =>
    simp only [dropLine]
    split
    · simp
    · exact Nat.le_succ_of_le ih

/-- Helper for `physLines`; the fuel argument only drives structural
recursion and is irrelevant whenever it is at least the stream length. -/
def physLinesAux : Nat → List Char → List String
  | 0, _ => []
  | _, [] => []
  | fuel + 1, c :: cs =>
    String.mk (takeLine (c :: cs)) :: physLinesAux fuel (dropLine (c :: cs))

/-- The physical lines of a character stream, as produced by a plain sequential
scan (`readline` until EOF): each line includes its trailing newline except
possibly the last. -/
def physLines (cs : List Char) : List String := physLinesAux cs.length cs

theorem dropLine_cons_length_le (c : Char) (cs : List Char) :
    (dropLine (c :: cs)).length ≤ cs.length := by
  simp only [dropLine]
  split
  · exact Nat.le_refl _
  · exact dropLine_length_le cs

theorem physLinesAux_congr (fuel₁ : Nat) :
    ∀ fuel₂ cs, cs.length ≤ fuel₁ → cs.length ≤ fuel₂ →
      physLinesAux fuel₁ cs = physLinesAux fuel₂ cs := by
  induction fuel₁ with
  | zero =>
    intro fuel₂ cs h₁ _
    have : cs = [] := List.length_eq_zero.mp (Nat.le_zero.mp h₁)
    subst this
    cases fuel₂ <;> rfl
  | succ fuel₁ ih =>
    intro fuel₂ cs h₁ h₂
    cases cs with
    | nil => cases fuel₂ <;> rfl
    | cons c cs =>
      cases fuel₂ with
      | zero => exact absurd h₂ (by simp)
      | succ fuel₂ =>
        simp only [physLinesAux]
        have hd := dropLine_cons_length_le c cs
        have h₁' : cs.length ≤ fuel₁ := Nat.succ_le_succ_iff.mp h₁
        have h₂' : cs.length ≤ fuel₂ := Nat.succ_le_succ_iff.mp h₂
        rw [ih fuel₂ _ (Nat.le_trans hd h₁') (Nat.le_trans hd h₂')]

theorem physLinesAux_of_le (fuel : Nat) (cs : List Char)
    (h : cs.length ≤ fuel) : physLinesAux fuel cs = physLines cs :=
  physLinesAux_congr fuel cs.length cs h (Nat.le_refl _)

theorem physLines_nil : physLines [] = [] := rfl

theorem physLines_cons (c : Char) (cs : List Char) :
    physLines (c :: cs) =
      String.mk (takeLine (c :: cs)) :: physLines (dropLine (c :: cs)) := by
  simp only [physLines, List.length_cons, physLinesAux]
  rw [physLinesAux_of_le _ _ (dropLine_cons_length_le c cs)]
  rfl

theorem physLines_ne_nil (c : Char) (cs : List Char) :
    physLines (c :: cs) ≠ [] := by
  rw [physLines_cons]; exact List.cons_ne_nil _ _

/-- Number of physical lines of a character stream. -/
def countLines (cs : List Char) : Nat := (physLines cs).length

/-- Byte (character) offset at which physical line `j` starts: the cursor
position after sequentially reading `j` lines from the start. -/
def lineStart (cs : List Char) : Nat → Nat
  | 0 => 0
  | j + 1 => lineStart cs j + (takeLine (cs.drop (lineStart cs j))).length

/-- Python exceptions surfaced by the embedded methods. -/
inductive PyErr where
  | indexError
  | typeError
  | valueError (msg : String)
deriving DecidableEq

/-- Result of `get_example`: a bare string for a single-file dataset, an
ordered tuple of strings for a multi-file dataset. -/
inductive Example where
  | single (s : String)
  | tuple (ls : List String)
deriving DecidableEq

/-- The `paths` argument: a single string or a list of strings. -/
inductive PathsArg where
  | str (p : String)
  | list (ps : List String)

/-- An `encoding`/`errors`/`newline` argument: a single string, `None`, or a
list of per-file values. -/
inductive OptArg where
  | str (s : String)
  | null
  | list (l : List (Option String))

/-- Broadcasting of a per-file option (source lines 69-74): a single string or
`None` is replicated across all files, a list is taken as given. -/
def resolveOpt (o : OptArg) (n : Nat) : List (Option String) :=
  match o with
  | .str s => List.replicate n (some s)
  | .null => List.replicate n none
  | .list l => l

/-- Normalisation of the `paths` argument (source lines 64-65): a single
string becomes a one-element list. -/
def resolvedPaths : PathsArg → List String
  | .str p => [p]
  | .list ps => ps

/-- The persistent fields of a `TextDataset` instance.  `_fps` is `none` when
the handles are closed (the class attribute default on line 59). -/
structure TextDataset where
  _paths : List String
  _encoding : List (Option String)
  _errors : List (Option String)
  _newline : List (Option String)
  _fps : Option (List Handle)
  _bounds : List (List Nat)
  _lines : List Nat
deriving DecidableEq

instance : Inhabited TextDataset := ⟨⟨[], [], [], [], none, [], []⟩⟩

/-- The state captured by `__getstate__`: everything except `_fps` and
`_lock`; in particular it holds no live file handles. -/
structure ReaderState where
  _paths : List String
  _encoding : List (Option String)
  _errors : List (Option String)
  _newline : List (Option String)
  _bounds : List (List Nat)
  _lines : List Nat
deriving DecidableEq

/-- The indexing loop of `__init__` (source lines 97-108).  One fuel unit is
spent per iteration; the caller supplies fuel provably larger than the number
of iterations, so the `none` (fuel exhausted) case never arises there.
Returns the advanced handles, the boundary lists, the accepted line numbers
and the total physical line count. -/
def buildLoop (f? : Option (List String → Bool)) :
    Nat → List Handle → Nat → List Nat → List (List Nat) →
      Option (Except PyErr (List Handle × List (List Nat) × List Nat × Nat))
  | 0, _, _, _, _ => none
  | fuel + 1, fps, linenum, lines, bounds =>
    let data := fps.map fun fp => fp.readline.1
    if data.all fun s => s != "" then
      let fps' := fps.map fun fp => fp.readline.2
      let bounds' := List.zipWith (fun b fp => b ++ [fp.tell]) bounds fps'
      let lines' :=
        if f?.elim false (fun f => f data) then lines ++ [linenum] else lines
      buildLoop f? fuel fps' (linenum + 1) lines' bounds'
    else if data.any fun s => s != "" then
      some (.error (.valueError "number of lines in files does not match"))
    else
      some (.ok (fps, bounds, lines, linenum))

/-- `TextDataset.__init__` (source lines 61-115): path normalisation, option
broadcasting and length checks, eager `_open`, then the indexing loop. -/
def TextDataset.mk? (fs : FileSys) (pathsArg : PathsArg)
    (encoding errors newline : OptArg) (f? : Option (List String → Bool)) :
    Except PyErr TextDataset :=
  let paths := resolvedPaths pathsArg
  if paths.isEmpty then
    .error (.valueError "at least one text file must be specified")
  else
    let enc := resolveOpt encoding paths.length
    let errs := resolveOpt errors paths.length
    let nl := resolveOpt newline paths.length
    if ¬(paths.length = enc.length ∧ paths.length = errs.length ∧
         paths.length = nl.length) then
      .error (.valueError
        "length of each option must match with the number of text files to read")
    else
      let fps := paths.map fun p => Handle.mk (fs p) 0
      match buildLoop f? ((fs (paths.headD "")).length + 1) fps 0 []
          (fps.map fun _ => [0]) with
      | none => .error (.valueError "fuel exhausted")
      | some (.error e) => .error e
      | some (.ok (fps', bounds, lines, linenum)) =>
        .ok { _paths := paths, _encoding := enc, _errors := errs, _newline := nl,
              _fps := some fps', _bounds := bounds,
              _lines := if f?.isSome then lines else List.range linenum }

/-- `TextDataset.__len__`. -/
def TextDataset.len (ds : TextDataset) : Nat := ds._lines.length

/-- Source lines 167-170: a single-file dataset yields the bare line, a
multi-file dataset the ordered tuple of lines. -/
def mkExampleOf (ls : List String) : Example :=
  if ls.length = 1 then .single (ls.headD "") else .tuple ls

/-- `TextDataset.get_example` (source lines 158-172).  Besides the result it
returns the updated dataset (cursors move as a side effect of seek/read) and
the number of seek/read calls performed, so absence of I/O is observable. -/
def TextDataset.get_example (ds : TextDataset) (idx : Int) :
    Except PyErr Example × TextDataset × Nat :=
  if idx < 0 ∨ (ds._lines.length : Int) ≤ idx then
    (.error .indexError, ds, 0)
  else
    match ds._fps with
    | none => (.error .typeError, ds, 0)
    | some fps =>
      let linenum := ds._lines.getD idx.toNat 0
      let fps1 := List.zipWith (fun fp b => fp.seek (b.getD linenum 0)) fps ds._bounds
      let lines := fps1.map fun fp => fp.readline.1
      let fps2 := fps1.map fun fp => fp.readline.2
      (.ok (mkExampleOf lines), { ds with _fps := some fps2 }, 2 * fps.length)

/-- `TextDataset._open` (source lines 135-146): a no-op when handles are
already open, otherwise opens one handle per path at position 0. -/
def TextDataset._open (fs : FileSys) (ds : TextDataset) : TextDataset :=
  match ds._fps with
  | some _ => ds
  | none => { ds with _fps := some (ds._paths.map fun p => Handle.mk (fs p) 0) }

/-- The per-handle close attempts of `_close` (source lines 151-155).
`fails` says which individual `fp.close()` calls raise; the `try/except
Exception: pass` swallows either outcome, so every handle is attempted and
the loop always reaches the end.  Returns, per handle, whether its close was
attempted. -/
def closeLoop : List Handle → List Bool → List Bool
  | [], _ => []
  | _fp :: fps, fails =>
    match (if fails.headD false then (Except.error () : Except Unit Unit)
           else .ok ()) with
    | .ok _ => true :: closeLoop fps fails.tail
    | .error _ => true :: closeLoop fps fails.tail

/-- `TextDataset._close` (source lines 148-156): a no-op when already closed,
otherwise attempts to close every handle (ignoring failures per `fails`) and
discards them. -/
def TextDataset._close (fails : List Bool) (ds : TextDataset) :
    TextDataset × List Bool :=
  match ds._fps with
  | none => (ds, [])
  | some fps => ({ ds with _fps := none }, closeLoop fps fails)

/-- `TextDataset.__getstate__` (source lines 120-124): a copy of the instance
dictionary without `_fps` and `_lock`. -/
def TextDataset.getstate (ds : TextDataset) : ReaderState :=
  ⟨ds._paths, ds._encoding, ds._errors, ds._newline, ds._bounds, ds._lines⟩

/-- `TextDataset.__setstate__` (source lines 126-130): close current handles,
adopt the pickled state (after which `_fps` falls back to the class attribute
`None`, line 59), then `_open`. -/
def TextDataset.setstate (fs : FileSys) (fails : List Bool)
    (ds : TextDataset) (st : ReaderState) : TextDataset :=
  let _closed := TextDataset._close fails ds
  let ds2 : TextDataset :=
    { _paths := st._paths, _encoding := st._encoding, _errors := st._errors,
      _newline := st._newline, _fps := none, _bounds := st._bounds,
      _lines := st._lines }
  TextDataset._open fs ds2

/-! ### Facts about line decomposition and line-start offsets -/

theorem takeLine_append_dropLine (cs : List Char) :
    takeLine cs ++ dropLine cs = cs := by
  induction cs with
  | nil => rfl
  | cons c cs ih =>
    simp only [takeLine, dropLine]
    split
    · simp
    · simpa using ih

theorem takeLine_ne_nil (c : Char) (cs : List Char) : takeLine (c :: cs) ≠ [] := by
  simp only [takeLine]
  split <;> simp

theorem takeLine_length_pos (c : Char) (cs : List Char) :
    0 < (takeLine (c :: cs)).length :=
  List.length_pos.mpr (takeLine_ne_nil c cs)

theorem drop_takeLine_length (cs : List Char) :
    cs.drop (takeLine cs).length = dropLine cs := by
  nth_rewrite 2 [← takeLine_append_dropLine cs]
  exact List.drop_left _ _

theorem countLines_nil : countLines [] = 0 := rfl

theorem countLines_cons (c : Char) (cs : List Char) :
    countLines (c :: cs) = countLines (dropLine (c :: cs)) + 1 := by
  simp only [countLines, physLines_cons, List.length_cons]

theorem countLines_pos (c : Char) (cs : List Char) : 0 < countLines (c :: cs) := by
  rw [countLines_cons]; exact Nat.succ_pos _

theorem physLinesAux_length_le (fuel : Nat) :
    ∀ cs : List Char, (physLinesAux fuel cs).length ≤ cs.length := by
  induction fuel with
  | zero => intro cs; simp [physLinesAux]
  | succ fuel ih =>
    intro cs
    cases cs with
    | nil => simp [physLinesAux]
    | cons c cs =>
      simp only [physLinesAux, List.length_cons]
      have h1 := ih (dropLine (c :: cs))
      have h2 := dropLine_cons_length_le c cs
      omega

theorem countLines_le_length (cs : List Char) : countLines cs ≤ cs.length :=
  physLinesAux_length_le cs.length cs

theorem lineStart_zero (cs : List Char) : lineStart cs 0 = 0 := rfl

theorem lineStart_succ (cs : List Char) (j : Nat) :
    lineStart cs (j + 1) =
      lineStart cs j + (takeLine (cs.drop (lineStart cs j))).length := rfl

theorem lineStart_shift (cs : List Char) (j : Nat) :
    lineStart cs (j + 1) = (takeLine cs).length + lineStart (dropLine cs) j := by
  induction j with
  | zero => simp [lineStart_succ, lineStart_zero]
  | succ j ih =>
    rw [lineStart_succ, ih, lineStart_succ]
    have hdrop : cs.drop ((takeLine cs).length + lineStart (dropLine cs) j) =
        (dropLine cs).drop (lineStart (dropLine cs) j) := by
      rw [← List.drop_drop, drop_takeLine_length]
    rw [hdrop, Nat.add_assoc]

theorem drop_lineStart_shift (cs : List Char) (j : Nat) :
    cs.drop (lineStart cs (j + 1)) =
      (dropLine cs).drop (lineStart (dropLine cs) j) := by
  rw [lineStart_shift, ← List.drop_drop, drop_takeLine_length]

theorem drop_lineStart_eq_nil (cs : List Char) (j : Nat)
    (h : countLines cs ≤ j) : cs.drop (lineStart cs j) = [] := by
  induction j generalizing cs with
  | zero =>
    cases cs with
    | nil => rfl
    | cons c cs =>
      have := countLines_pos c cs
      omega
  | succ j ih =>
    cases cs with
    | nil => simp
    | cons c cs =>
      rw [drop_lineStart_shift]
      apply ih
      rw [countLines_cons] at h
      omega

theorem drop_lineStart_ne_nil (cs : List Char) (j : Nat)
    (h : j < countLines cs) : cs.drop (lineStart cs j) ≠ [] := by
  induction j generalizing cs with
  | zero =>
    cases cs with
    | nil => exact absurd h (by simp [countLines_nil])
    | cons c cs => simp [lineStart_zero]
  | succ j ih =>
    cases cs with
    | nil => exact absurd h (by simp [countLines_nil])
    | cons c cs =>
      rw [drop_lineStart_shift]
      apply ih
      rw [countLines_cons] at h
      omega

theorem physLines_getD (cs : List Char) (j : Nat) (h : j < countLines cs) :
    (physLines cs).getD j "" =
      String.mk (takeLine (cs.drop (lineStart cs j))) := by
  induction j generalizing cs with
  | zero =>
    cases cs with
    | nil => exact absurd h (by simp [countLines_nil])
    | cons c cs => simp [physLines_cons, lineStart_zero]
  | succ j ih =>
    cases cs with
    | nil => exact absurd h (by simp [countLines_nil])
    | cons c cs =>
      rw [physLines_cons, List.getD_cons_succ, drop_lineStart_shift]
      apply ih
      rw [countLines_cons] at h
      omega

theorem lineStart_lt_succ (cs : List Char) (j : Nat) (h : j < countLines cs) :
    lineStart cs j < lineStart cs (j + 1) := by
  rw [lineStart_succ]
  have hne := drop_lineStart_ne_nil cs j h
  cases hd : cs.drop (lineStart cs j) with
  | nil => exact absurd hd hne
  | cons c rest =>
    have := takeLine_length_pos c rest
    omega

/-! ### Helper list lemmas -/

theorem zipWith_zipWith_same {α β γ δ : Type} (g : γ → β → δ) (h : α → β → γ) :
    ∀ (bs : List α) (cs : List β),
      List.zipWith g (List.zipWith h bs cs) cs =
        List.zipWith (fun b c => g (h b c) c) bs cs := by
  intro bs
  induction bs with
  | nil => intro cs; simp
  | cons b bs ih =>
    intro cs
    cases cs with
    | nil => simp
    | cons c cs => simp [List.zipWith_cons_cons, ih]

theorem zipWith_left_of_length_le {α β : Type} :
    ∀ (bs : List α) (cs : List β), bs.length ≤ cs.length →
      List.zipWith (fun b _ => b) bs cs = bs := by
  intro bs
  induction bs with
  | nil => intro cs _; simp
  | cons b bs ih =>
    intro cs hlen
    cases cs with
    | nil => simp at hlen
    | cons c cs =>
      simp only [List.zipWith_cons_cons, List.cons.injEq, true_and]
      exact ih cs (by simpa using hlen)

theorem mk_takeLine_ne_empty (cs : List Char) (h : cs ≠ []) :
    String.mk (takeLine cs) ≠ "" := by
  cases cs with
  | nil => exact absurd rfl h
  | cons c cs =>
    intro hcontra
    have : takeLine (c :: cs) = [] := by
      have := congrArg String.data hcontra
      simpa using this
    exact takeLine_ne_nil c cs this

/-- The tuple of decoded line strings the indexing loop reads on iteration
`i`: one physical line per file, starting at its line-`i` offset. -/
def recordAt (contents : List (List Char)) (i : Nat) : List String :=
  contents.map fun c => String.mk (takeLine (c.drop (lineStart c i)))

theorem buildLoop_aligned (f? : Option (List String → Bool))
    (contents : List (List Char)) (hne : contents ≠ []) (n : Nat)
    (hcount : ∀ c ∈ contents, countLines c = n) :
    ∀ fuel j lines0 bounds0, j ≤ n → n - j < fuel →
      bounds0.length = contents.length →
      buildLoop f? fuel (contents.map fun c => Handle.mk c (lineStart c j)) j
          lines0 bounds0
        = some (.ok
            (contents.map fun c => Handle.mk c (lineStart c n),
             List.zipWith
               (fun b c => b ++ ((List.range' (j + 1) (n - j)).map (lineStart c)))
               bounds0 contents,
             lines0 ++ f?.elim []
               (fun f => (List.range' j (n - j)).filter
                 fun i => f (recordAt contents i)),
             n)) := by
  intro fuel
  induction fuel with
  | zero => intro j lines0 bounds0 _ hfuel _; omega
  | succ fuel ih =>
    intro j lines0 bounds0 hj hfuel hblen
    simp only [buildLoop, List.map_map]
    have hdata : List.map ((fun fp => fp.readline.1) ∘ fun c => Handle.mk c (lineStart c j))
        contents = recordAt contents j := by
      simp [Handle.readline, recordAt, Function.comp]
    rw [hdata]
    by_cases hjn : j = n
    · subst hjn
      have hempty : ∀ s ∈ recordAt contents j, s = "" := by
        intro s hs
        rcases List.mem_map.mp hs with ⟨c, hc, rfl⟩
        rw [drop_lineStart_eq_nil c j (Nat.le_of_eq (hcount c hc))]
        rfl
      have hall : (recordAt contents j).all (fun s => s != "") = false := by
        rcases List.exists_mem_of_ne_nil contents hne with ⟨c, hc⟩
        refine List.all_eq_false.mpr ⟨"", ?_, by simp⟩
        have : String.mk (takeLine (c.drop (lineStart c j))) ∈ recordAt contents j :=
          List.mem_map_of_mem _ hc
        rwa [hempty _ this] at this
      have hany : (recordAt contents j).any (fun s => s != "") = false := by
        refine List.any_eq_false.mpr ?_
        intro s hs
        rw [hempty s hs]
        simp
      rw [hall, hany]
      simp only [Bool.false_eq_true, if_false, Nat.sub_self, List.range'_zero,
        List.map_nil, List.append_nil, List.filter_nil]
      rw [zipWith_left_of_length_le bounds0 contents (Nat.le_of_eq hblen)]
      cases f? <;> simp
    · have hjlt : j < n := Nat.lt_of_le_of_ne hj hjn
      have hnonempty : ∀ s ∈ recordAt contents j, s ≠ "" := by
        intro s hs
        rcases List.mem_map.mp hs with ⟨c, hc, rfl⟩
        exact mk_takeLine_ne_empty _ (drop_lineStart_ne_nil c j (by rw [hcount c hc]; exact hjlt))
      have hall : (recordAt contents j).all (fun s => s != "") = true := by
        refine List.all_eq_true.mpr ?_
        intro s hs
        simpa using hnonempty s hs
      rw [hall]
      simp only [if_true]
      have hfps' : List.map ((fun fp => fp.readline.2) ∘ fun c => Handle.mk c (lineStart c j))
          contents = contents.map fun c => Handle.mk c (lineStart c (j + 1)) := by
        apply List.map_congr_left
        intro c _
        simp [Handle.readline, Function.comp, lineStart_succ]
      rw [hfps', List.zipWith_map_right]
      have htell : (fun (b : List Nat) (c : List Char) =>
            b ++ [Handle.tell (Handle.mk c (lineStart c (j + 1)))]) =
          fun b c => b ++ [lineStart c (j + 1)] := rfl
      rw [htell]
      have hrange : n - j = (n - (j + 1)) + 1 := by omega
      have hblen' : (List.zipWith (fun b c => b ++ [lineStart c (j + 1)])
          bounds0 contents).length = contents.length := by
        simp [List.length_zipWith, hblen]
      have hboundsEq : List.zipWith
            (fun b c => b ++ List.map (lineStart c) (List.range' (j + 1 + 1) (n - (j + 1))))
            (List.zipWith (fun b c => b ++ [lineStart c (j + 1)]) bounds0 contents) contents
          = List.zipWith
            (fun b c => b ++ List.map (lineStart c) (List.range' (j + 1) (n - j)))
            bounds0 contents := by
        rw [zipWith_zipWith_same]
        congr 1
        funext b c
        rw [hrange, List.range'_succ]
        simp
      cases f? with
      | none =>
        simp only [Option.elim, Bool.false_eq_true, if_false]
        rw [ih (j + 1) lines0
          (List.zipWith (fun b c => b ++ [lineStart c (j + 1)]) bounds0 contents)
          hjlt (by omega) hblen']
        rw [hboundsEq]
        simp [Option.elim]
      | some f =>
        simp only [Option.elim]
        by_cases hf : f (recordAt contents j) = true
        · rw [if_pos hf]
          rw [ih (j + 1) (lines0 ++ [j])
            (List.zipWith (fun b c => b ++ [lineStart c (j + 1)]) bounds0 contents)
            hjlt (by omega) hblen']
          rw [hboundsEq, hrange]
          simp [Option.elim, List.range'_succ, List.filter_cons, hf, List.append_assoc]
        · rw [if_neg hf]
          rw [ih (j + 1) lines0
            (List.zipWith (fun b c => b ++ [lineStart c (j + 1)]) bounds0 contents)
            hjlt (by omega) hblen']
          rw [hboundsEq, hrange]
          simp [Option.elim, List.range'_succ, List.filter_cons, hf]

theorem buildLoop_misaligned (f? : Option (List String → Bool))
    (contents : List (List Char)) (m : Nat)
    (hmin : ∀ c ∈ contents, m ≤ countLines c)
    (hex : ∃ c ∈ contents, countLines c = m)
    (hneq : ∃ c ∈ contents, countLines c ≠ m) :
    ∀ fuel j lines0 bounds0, j ≤ m → m - j < fuel →
      buildLoop f? fuel (contents.map fun c => Handle.mk c (lineStart c j)) j
          lines0 bounds0
        = some (.error (.valueError "number of lines in files does not match")) := by
  intro fuel
  induction fuel with
  | zero => intro j _ _ _ hfuel; omega
  | succ fuel ih =>
    intro j lines0 bounds0 hj hfuel
    simp only [buildLoop, List.map_map]
    have hdata : List.map ((fun fp => fp.readline.1) ∘ fun c => Handle.mk c (lineStart c j))
        contents = recordAt contents j := by
      simp [Handle.readline, recordAt, Function.comp]
    rw [hdata]
    by_cases hjm : j = m
    · subst hjm
      have hall : (recordAt contents j).all (fun s => s != "") = false := by
        rcases hex with ⟨c, hc, hcm⟩
        refine List.all_eq_false.mpr
          ⟨String.mk (takeLine (c.drop (lineStart c j))), List.mem_map_of_mem _ hc, ?_⟩
        rw [drop_lineStart_eq_nil c j (Nat.le_of_eq hcm)]
        simp
        rfl
      have hany : (recordAt contents j).any (fun s => s != "") = true := by
        rcases hneq with ⟨c, hc, hcm⟩
        have hlt : j < countLines c := Nat.lt_of_le_of_ne (hmin c hc) (Ne.symm hcm)
        refine List.any_eq_true.mpr
          ⟨String.mk (takeLine (c.drop (lineStart c j))), List.mem_map_of_mem _ hc, ?_⟩
        simpa using mk_takeLine_ne_empty _ (drop_lineStart_ne_nil c j hlt)
      rw [hall, hany]
      simp
    · have hjlt : j < m := Nat.lt_of_le_of_ne hj hjm
      have hall : (recordAt contents j).all (fun s => s != "") = true := by
        refine List.all_eq_true.mpr ?_
        intro s hs
        rcases List.mem_map.mp hs with ⟨c, hc, rfl⟩
        simpa using mk_takeLine_ne_empty _
          (drop_lineStart_ne_nil c j (Nat.lt_of_lt_of_le hjlt (hmin c hc)))
      rw [hall]
      simp only [if_true]
      have hfps' : List.map ((fun fp => fp.readline.2) ∘ fun c => Handle.mk c (lineStart c j))
          contents = contents.map fun c => Handle.mk c (lineStart c (j + 1)) := by
        apply List.map_congr_left
        intro c _
        simp [Handle.readline, Function.comp, lineStart_succ]
      rw [hfps']
      exact ih (j + 1) _ _ hjlt (by omega)

theorem headD_mem {α : Type} (l : List α) (d : α) (h : l ≠ []) : l.headD d ∈ l := by
  cases l with
  | nil => exact absurd rfl h
  | cons a l => simp

theorem boundsRow_eq (cs : List Char) (n : Nat) :
    [0] ++ (List.range' 1 n).map (lineStart cs) =
      (List.range (n + 1)).map (lineStart cs) := by
  rw [List.range_eq_range', List.range'_succ]
  simp [lineStart_zero]

/-- The dataset `__init__` produces when every file has physical line count
`n`: handles left at end of stream, per-file offset tables
`[lineStart 0, ..., lineStart n]`, and the accepted line numbers. -/
def alignedDataset (fs : FileSys) (paths : List String)
    (encoding errors newline : OptArg) (f? : Option (List String → Bool))
    (n : Nat) : TextDataset :=
  { _paths := paths,
    _encoding := resolveOpt encoding paths.length,
    _errors := resolveOpt errors paths.length,
    _newline := resolveOpt newline paths.length,
    _fps := some (paths.map fun p => Handle.mk (fs p) (lineStart (fs p) n)),
    _bounds := paths.map fun p => (List.range (n + 1)).map (lineStart (fs p)),
    _lines := f?.elim (List.range n)
      (fun f => (List.range n).filter fun i => f (recordAt (paths.map fs) i)) }

theorem mk?_aligned (fs : FileSys) (pathsArg : PathsArg)
    (encoding errors newline : OptArg) (f? : Option (List String → Bool)) (n : Nat)
    (hne : resolvedPaths pathsArg ≠ [])
    (henc : (resolveOpt encoding (resolvedPaths pathsArg).length).length
      = (resolvedPaths pathsArg).length)
    (herr : (resolveOpt errors (resolvedPaths pathsArg).length).length
      = (resolvedPaths pathsArg).length)
    (hnl : (resolveOpt newline (resolvedPaths pathsArg).length).length
      = (resolvedPaths pathsArg).length)
    (hcount : ∀ p ∈ resolvedPaths pathsArg, countLines (fs p) = n) :
    TextDataset.mk? fs pathsArg encoding errors newline f?
      = .ok (alignedDataset fs (resolvedPaths pathsArg) encoding errors newline f? n) := by
  simp only [TextDataset.mk?]
  rw [if_neg (by simp [List.isEmpty_eq_false.mpr hne])]
  rw [if_neg (not_not_intro ⟨henc.symm, herr.symm, hnl.symm⟩)]
  have hmap : (resolvedPaths pathsArg).map (fun p => Handle.mk (fs p) 0)
      = ((resolvedPaths pathsArg).map fs).map fun c => Handle.mk c (lineStart c 0) := by
    simp [List.map_map, Function.comp, lineStart_zero]
  rw [hmap]
  have hne' : (resolvedPaths pathsArg).map fs ≠ [] := by
    simpa using hne
  have hcount' : ∀ c ∈ (resolvedPaths pathsArg).map fs, countLines c = n := by
    intro c hc
    rcases List.mem_map.mp hc with ⟨p, hp, rfl⟩
    exact hcount p hp
  have hfuel : n - 0 < (fs ((resolvedPaths pathsArg).headD "")).length + 1 := by
    have hm := headD_mem (resolvedPaths pathsArg) "" hne
    have := hcount _ hm
    have := countLines_le_length (fs ((resolvedPaths pathsArg).headD ""))
    omega
  rw [buildLoop_aligned f? ((resolvedPaths pathsArg).map fs) hne' n hcount'
    ((fs ((resolvedPaths pathsArg).headD "")).length + 1) 0 []
    ((((resolvedPaths pathsArg).map fs).map fun c =>
        Handle.mk c (lineStart c 0)).map fun _ => [0])
    (Nat.zero_le n) hfuel (by simp)]
  have hbounds : List.zipWith
        (fun b c => b ++ List.map (lineStart c) (List.range' (0 + 1) (n - 0)))
        ((((resolvedPaths pathsArg).map fs).map fun c =>
          Handle.mk c (lineStart c 0)).map fun _ => ([0] : List Nat))
        ((resolvedPaths pathsArg).map fs)
      = (resolvedPaths pathsArg).map fun p =>
          (List.range (n + 1)).map (lineStart (fs p)) := by
    rw [List.map_map, List.zipWith_map_left, List.zipWith_same, List.map_map]
    apply List.map_congr_left
    intro p _
    simpa using boundsRow_eq (fs p) n
  rw [hbounds]
  cases f? with
  | none =>
    simp [Option.elim, alignedDataset, List.map_map, Function.comp]
  | some f =>
    simp [Option.elim, alignedDataset, List.map_map, Function.comp,
      List.range_eq_range']

theorem exists_min_nat (l : List Nat) (h : l ≠ []) : ∃ m ∈ l, ∀ x ∈ l, m ≤ x := by
  induction l with
  | nil => exact absurd rfl h
  | cons a l ih =>
    cases l with
    | nil => exact ⟨a, by simp, by simp⟩
    | cons b t =>
      rcases ih (by simp) with ⟨m, hm, hle⟩
      by_cases hma : a ≤ m
      · refine ⟨a, by simp, ?_⟩
        intro x hx
        rcases List.mem_cons.mp hx with rfl | hx
        · exact Nat.le_refl _
        · exact Nat.le_trans hma (hle x hx)
      · refine ⟨m, List.mem_cons_of_mem _ hm, ?_⟩
        intro x hx
        rcases List.mem_cons.mp hx with rfl | hx
        · exact Nat.le_of_lt (Nat.lt_of_not_le hma)
        · exact hle x hx

theorem mk?_misaligned (fs : FileSys) (pathsArg : PathsArg)
    (encoding errors newline : OptArg) (f? : Option (List String → Bool))
    (hne : resolvedPaths pathsArg ≠ [])
    (henc : (resolveOpt encoding (resolvedPaths pathsArg).length).length
      = (resolvedPaths pathsArg).length)
    (herr : (resolveOpt errors (resolvedPaths pathsArg).length).length
      = (resolvedPaths pathsArg).length)
    (hnl : (resolveOpt newline (resolvedPaths pathsArg).length).length
      = (resolvedPaths pathsArg).length)
    (hdisagree : ∃ p ∈ resolvedPaths pathsArg, ∃ q ∈ resolvedPaths pathsArg,
      countLines (fs p) ≠ countLines (fs q)) :
    TextDataset.mk? fs pathsArg encoding errors newline f?
      = .error (.valueError "number of lines in files does not match") := by
  simp only [TextDataset.mk?]
  rw [if_neg (by simp [List.isEmpty_eq_false.mpr hne])]
  rw [if_neg (not_not_intro ⟨henc.symm, herr.symm, hnl.symm⟩)]
  have hmap : (resolvedPaths pathsArg).map (fun p => Handle.mk (fs p) 0)
      = ((resolvedPaths pathsArg).map fs).map fun c => Handle.mk c (lineStart c 0) := by
    simp [List.map_map, Function.comp, lineStart_zero]
  rw [hmap]
  rcases exists_min_nat ((resolvedPaths pathsArg).map fun p => countLines (fs p))
      (by simpa using hne) with ⟨m, hmem, hmin⟩
  have hminc : ∀ c ∈ (resolvedPaths pathsArg).map fs, m ≤ countLines c := by
    intro c hc
    rcases List.mem_map.mp hc with ⟨p, hp, rfl⟩
    exact hmin _ (List.mem_map_of_mem _ hp)
  have hexc : ∃ c ∈ (resolvedPaths pathsArg).map fs, countLines c = m := by
    rcases List.mem_map.mp hmem with ⟨p, hp, hpm⟩
    exact ⟨fs p, List.mem_map_of_mem _ hp, hpm⟩
  have hneqc : ∃ c ∈ (resolvedPaths pathsArg).map fs, countLines c ≠ m := by
    rcases hdisagree with ⟨p, hp, q, hq, hpq⟩
    by_cases hpm : countLines (fs p) = m
    · exact ⟨fs q, List.mem_map_of_mem _ hq, by rw [← hpm]; exact (Ne.symm hpq)⟩
    · exact ⟨fs p, List.mem_map_of_mem _ hp, hpm⟩
  have hfuel : m - 0 < (fs ((resolvedPaths pathsArg).headD "")).length + 1 := by
    have hm := headD_mem (resolvedPaths pathsArg) "" hne
    have h1 : m ≤ countLines (fs ((resolvedPaths pathsArg).headD "")) :=
      hmin _ (List.mem_map_of_mem (fun p => countLines (fs p)) hm)
    have h2 := countLines_le_length (fs ((resolvedPaths pathsArg).headD ""))
    omega
  rw [buildLoop_misaligned f? ((resolvedPaths pathsArg).map fs) m hminc hexc hneqc
    ((fs ((resolvedPaths pathsArg).headD "")).length + 1) 0 []
    ((((resolvedPaths pathsArg).map fs).map fun c =>
        Handle.mk c (lineStart c 0)).map fun _ => [0])
    (Nat.zero_le m) hfuel]

theorem mk?_ok_inv (fs : FileSys) (pathsArg : PathsArg)
    (encoding errors newline : OptArg) (f? : Option (List String → Bool))
    (ds : TextDataset)
    (hok : TextDataset.mk? fs pathsArg encoding errors newline f? = .ok ds) :
    resolvedPaths pathsArg ≠ [] ∧
    ∃ n, (∀ p ∈ resolvedPaths pathsArg, countLines (fs p) = n) ∧
      ds = alignedDataset fs (resolvedPaths pathsArg) encoding errors newline f? n := by
  by_cases hne : resolvedPaths pathsArg = []
  · simp [TextDataset.mk?, hne] at hok
  refine ⟨hne, ?_⟩
  by_cases hlen : (resolvedPaths pathsArg).length
      = (resolveOpt encoding (resolvedPaths pathsArg).length).length ∧
      (resolvedPaths pathsArg).length
      = (resolveOpt errors (resolvedPaths pathsArg).length).length ∧
      (resolvedPaths pathsArg).length
      = (resolveOpt newline (resolvedPaths pathsArg).length).length
  · by_cases hacc : ∀ p ∈ resolvedPaths pathsArg,
        countLines (fs p) = countLines (fs ((resolvedPaths pathsArg).headD ""))
    · rw [mk?_aligned fs pathsArg encoding errors newline f?
        (countLines (fs ((resolvedPaths pathsArg).headD "")))
        hne hlen.1.symm hlen.2.1.symm hlen.2.2.symm hacc] at hok
      exact ⟨_, hacc, (Except.ok.injEq _ _).mp hok.symm⟩
    · push_neg at hacc
      rcases hacc with ⟨p, hp, hpneq⟩
      rw [mk?_misaligned fs pathsArg encoding errors newline f?
        hne hlen.1.symm hlen.2.1.symm hlen.2.2.symm
        ⟨p, hp, (resolvedPaths pathsArg).headD "",
          headD_mem _ _ hne, hpneq⟩] at hok
      cases hok
  · simp only [TextDataset.mk?] at hok
    rw [if_neg (by simp [List.isEmpty_eq_false.mpr hne])] at hok
    rw [if_pos hlen] at hok
    cases hok

theorem getD_map_range (f : Nat → Nat) (m j : Nat) (h : j < m) :
    ((List.range m).map f).getD j 0 = f j := by
  rw [List.getD_eq_getElem _ _ (by simpa using h)]
  simp

theorem alignedDataset_lines_lt (fs : FileSys) (paths : List String)
    (encoding errors newline : OptArg) (f? : Option (List String → Bool))
    (n : Nat) :
    ∀ x ∈ (alignedDataset fs paths encoding errors newline f? n)._lines, x < n := by
  intro x hx
  cases f? with
  | none => simpa [alignedDataset, Option.elim] using hx
  | some f =>
    simp only [alignedDataset, Option.elim, List.mem_filter] at hx
    exact List.mem_range.mp hx.1

theorem get_example_aligned_fst (fs : FileSys) (paths : List String)
    (encoding errors newline : OptArg) (f? : Option (List String → Bool))
    (n : Nat) (hcount : ∀ p ∈ paths, countLines (fs p) = n)
    (i : Int) (h0 : 0 ≤ i)
    (hi : i < ((alignedDataset fs paths encoding errors newline f? n)._lines.length : Int))
    (linenum : Nat)
    (hlinenum : (alignedDataset fs paths encoding errors newline f? n)._lines.getD
      i.toNat 0 = linenum) :
    ((alignedDataset fs paths encoding errors newline f? n).get_example i).1
      = .ok (mkExampleOf (paths.map fun p =>
          (physLines (fs p)).getD linenum "")) := by
  have hmem : linenum ∈ (alignedDataset fs paths encoding errors newline f? n)._lines := by
    rw [← hlinenum, List.getD_eq_getElem _ _ (by omega)]
    exact List.getElem_mem _
  have hlt : linenum < n :=
    alignedDataset_lines_lt fs paths encoding errors newline f? n _ hmem
  simp only [TextDataset.get_example]
  rw [if_neg (by omega)]
  simp only [alignedDataset] at hlinenum ⊢
  rw [hlinenum]
  have hzip : List.zipWith (fun fp b => fp.seek (b.getD linenum 0))
        (paths.map fun p => Handle.mk (fs p) (lineStart (fs p) n))
        (paths.map fun p => (List.range (n + 1)).map (lineStart (fs p)))
      = paths.map fun p => Handle.mk (fs p) (lineStart (fs p) linenum) := by
    rw [List.zipWith_map, List.zipWith_same]
    apply List.map_congr_left
    intro p _
    simp only [Handle.seek]
    rw [getD_map_range (lineStart (fs p)) (n + 1) linenum (Nat.lt_succ_of_lt hlt)]
  rw [hzip, List.map_map]
  have hlines : List.map ((fun fp => fp.readline.1) ∘
        fun p => Handle.mk (fs p) (lineStart (fs p) linenum)) paths
      = paths.map fun p => (physLines (fs p)).getD linenum "" := by
    apply List.map_congr_left
    intro p hp
    simp only [Function.comp, Handle.readline]
    rw [physLines_getD (fs p) linenum (by rw [hcount p hp]; exact hlt)]
  rw [hlines]

theorem get_example_state_fields (ds : TextDataset) (idx : Int) :
    ((ds.get_example idx).2.1)._paths = ds._paths ∧
    ((ds.get_example idx).2.1)._encoding = ds._encoding ∧
    ((ds.get_example idx).2.1)._errors = ds._errors ∧
    ((ds.get_example idx).2.1)._newline = ds._newline ∧
    ((ds.get_example idx).2.1)._bounds = ds._bounds ∧
    ((ds.get_example idx).2.1)._lines = ds._lines := by
  simp only [TextDataset.get_example]
  split
  · exact ⟨rfl, rfl, rfl, rfl, rfl, rfl⟩
  · cases h : ds._fps with
    | none => simp
    | some fps => simp

/-! ### Concrete data used by the witnesses -/

/-- Witness filesystem: `w1`/`w2` are aligned three-line files, `w3` has a
single line, `w4`/`w5` are empty. -/
def fsW : FileSys := fun p =>
  if p = "w1" then ['a', '\n', 'b', '\n', 'c', '\n']
  else if p = "w2" then ['x', '\n', 'y', '\n', 'z', '\n']
  else if p = "w3" then ['u', '\n']
  else []

/-- Witness dataset: the two aligned files, no filter. -/
def dsW : TextDataset :=
  match TextDataset.mk? fsW (.list ["w1", "w2"]) .null .null .null none with
  | .ok ds => ds
  | .error _ => default

theorem dsW_ok : TextDataset.mk? fsW (.list ["w1", "w2"]) .null .null .null none
    = .ok dsW := rfl

/-- C3: an out-of-range index (negative or at least `length()`) makes
`get_example` fail with `IndexError`, perform zero seek/read operations, and
return the dataset state unchanged. -/
theorem C3_out_of_range_error_no_io (ds : TextDataset) (idx : Int)
    (h : idx < 0 ∨ (ds._lines.length : Int) ≤ idx) :
    ds.get_example idx = (.error .indexError, ds, 0) := by
  simp only [TextDataset.get_example]
  rw [if_pos h]

/-- C3 witness: `get(-1)` on the concrete two-file dataset. -/
theorem C3_witness :
    ((-1 : Int) < 0 ∨ ((dsW._lines.length : Int) ≤ -1)) ∧
    dsW.get_example (-1) = (.error .indexError, dsW, 0) :=
  ⟨Or.inl (by decide), C3_out_of_range_error_no_io dsW (-1) (Or.inl (by decide))⟩

/-- C1: for a successfully constructed dataset, `get` at any valid logical
index returns exactly the record obtained by an independent sequential scan
(`physLines`) of each file, taken at the accepted physical line number. -/
theorem C1_get_matches_sequential_scan (fs : FileSys) (pathsArg : PathsArg)
    (encoding errors newline : OptArg) (f? : Option (List String → Bool))
    (ds : TextDataset)
    (hok : TextDataset.mk? fs pathsArg encoding errors newline f? = .ok ds)
    (i : Nat) (hi : i < ds.len) :
    (ds.get_example (i : Int)).1 = .ok (mkExampleOf (ds._paths.map fun p =>
      (physLines (fs p)).getD (ds._lines.getD i 0) "")) := by
  rcases mk?_ok_inv fs pathsArg encoding errors newline f? ds hok with
    ⟨hne, n, hcount, rfl⟩
  have hiI : (i : Int) <
      ((alignedDataset fs (resolvedPaths pathsArg) encoding errors newline f? n)._lines.length : Int) := by
    exact_mod_cast hi
  have h := get_example_aligned_fst fs (resolvedPaths pathsArg) encoding errors
    newline f? n hcount (i : Int) (by omega) hiI
    ((alignedDataset fs (resolvedPaths pathsArg) encoding errors newline f? n)._lines.getD i 0)
    (by rw [Int.toNat_natCast])
  rw [h]
  simp only [alignedDataset]

/-- C1 witness: logical index 1 of the concrete two-file dataset. -/
theorem C1_witness :
    1 < dsW.len ∧
    (dsW.get_example ((1 : Nat) : Int)).1 = .ok (mkExampleOf (dsW._paths.map fun p =>
      (physLines (fsW p)).getD (dsW._lines.getD 1 0) "")) :=
  ⟨by decide, C1_get_matches_sequential_scan fsW (.list ["w1", "w2"])
    .null .null .null none dsW dsW_ok 1 (by decide)⟩

/-- C2: when the input files disagree on total physical line count (and the
configuration itself is well-formed), construction fails with the alignment
`ValueError`; it never yields a truncated dataset. -/
theorem C2_misaligned_count_fails (fs : FileSys) (pathsArg : PathsArg)
    (encoding errors newline : OptArg) (f? : Option (List String → Bool))
    (hne : resolvedPaths pathsArg ≠ [])
    (henc : (resolveOpt encoding (resolvedPaths pathsArg).length).length
      = (resolvedPaths pathsArg).length)
    (herr : (resolveOpt errors (resolvedPaths pathsArg).length).length
      = (resolvedPaths pathsArg).length)
    (hnl : (resolveOpt newline (resolvedPaths pathsArg).length).length
      = (resolvedPaths pathsArg).length)
    (hdisagree : ∃ p ∈ resolvedPaths pathsArg, ∃ q ∈ resolvedPaths pathsArg,
      countLines (fs p) ≠ countLines (fs q)) :
    TextDataset.mk? fs pathsArg encoding errors newline f?
      = .error (.valueError "number of lines in files does not match") :=
  mk?_misaligned fs pathsArg encoding errors newline f? hne henc herr hnl hdisagree

/-- C2 witness: a three-line file paired with a one-line file. -/
theorem C2_witness :
    TextDataset.mk? fsW (.list ["w1", "w3"]) .null .null .null none
      = .error (.valueError "number of lines in files does not match") :=
  C2_misaligned_count_fails fsW (.list ["w1", "w3"]) .null .null .null none
    (by decide) (by decide) (by decide) (by decide)
    ⟨"w1", by decide, "w3", by decide, by decide⟩

/-- C10: when every input file is empty, construction succeeds, the length is
0, and every `get` call fails with `IndexError` without I/O or state change. -/
theorem C10_all_empty_files (fs : FileSys) (pathsArg : PathsArg)
    (encoding errors newline : OptArg) (f? : Option (List String → Bool))
    (hne : resolvedPaths pathsArg ≠ [])
    (henc : (resolveOpt encoding (resolvedPaths pathsArg).length).length
      = (resolvedPaths pathsArg).length)
    (herr : (resolveOpt errors (resolvedPaths pathsArg).length).length
      = (resolvedPaths pathsArg).length)
    (hnl : (resolveOpt newline (resolvedPaths pathsArg).length).length
      = (resolvedPaths pathsArg).length)
    (hempty : ∀ p ∈ resolvedPaths pathsArg, fs p = []) :
    ∃ ds, TextDataset.mk? fs pathsArg encoding errors newline f? = .ok ds ∧
      ds.len = 0 ∧
      ∀ idx : Int, ds.get_example idx = (.error .indexError, ds, 0) := by
  have hcount : ∀ p ∈ resolvedPaths pathsArg, countLines (fs p) = 0 := by
    intro p hp
    rw [hempty p hp, countLines_nil]
  refine ⟨alignedDataset fs (resolvedPaths pathsArg) encoding errors newline f? 0,
    mk?_aligned fs pathsArg encoding errors newline f? 0 hne henc herr hnl hcount,
    ?_, ?_⟩
  · cases f? <;> simp [alignedDataset, TextDataset.len, Option.elim]
  · intro idx
    have hlen : (alignedDataset fs (resolvedPaths pathsArg) encoding errors
        newline f? 0)._lines.length = 0 := by
      cases f? <;> simp [alignedDataset, Option.elim]
    simp only [TextDataset.get_example]
    rw [if_pos (by omega)]

/-- C10 witness: two empty files. -/
theorem C10_witness :
    ∃ ds, TextDataset.mk? fsW (.list ["w4", "w5"]) .null .null .null none = .ok ds ∧
      ds.len = 0 ∧
      ∀ idx : Int, ds.get_example idx = (.error .indexError, ds, 0) :=
  C10_all_empty_files fsW (.list ["w4", "w5"]) .null .null .null none
    (by decide) (by decide) (by decide) (by decide) (by decide)

/-- C9: constructing from a single path string is observationally identical
to constructing from the one-element list of that path, and the single-file
dataset returns a bare string (not a one-element tuple) at every valid
index. -/
theorem C9_single_string_equiv_singleton_list (fs : FileSys) (p : String)
    (encoding errors newline : OptArg) (f? : Option (List String → Bool))
    (ds : TextDataset)
    (hok : TextDataset.mk? fs (.str p) encoding errors newline f? = .ok ds) :
    TextDataset.mk? fs (.str p) encoding errors newline f?
      = TextDataset.mk? fs (.list [p]) encoding errors newline f? ∧
    ∀ i : Nat, i < ds.len → ∃ s, (ds.get_example (i : Int)).1
      = .ok (Example.single s) := by
  constructor
  · rfl
  · intro i hi
    rcases mk?_ok_inv fs (.str p) encoding errors newline f? ds hok with
      ⟨hne, n, hcount, rfl⟩
    have hiI : (i : Int) <
        ((alignedDataset fs (resolvedPaths (.str p)) encoding errors newline f? n)._lines.length : Int) := by
      exact_mod_cast hi
    have h := get_example_aligned_fst fs (resolvedPaths (.str p)) encoding errors
      newline f? n hcount (i : Int) (by omega) hiI
      ((alignedDataset fs (resolvedPaths (.str p)) encoding errors newline f? n)._lines.getD i 0)
      (by rw [Int.toNat_natCast])
    refine ⟨(physLines (fs p)).getD
      ((alignedDataset fs (resolvedPaths (.str p)) encoding errors newline f? n)._lines.getD i 0) "", ?_⟩
    rw [h]
    simp [mkExampleOf, resolvedPaths]

/-- Witness dataset over the single file `w1`. -/
def dsW1 : TextDataset :=
  match TextDataset.mk? fsW (.str "w1") .null .null .null none with
  | .ok ds => ds
  | .error _ => default

theorem dsW1_ok : TextDataset.mk? fsW (.str "w1") .null .null .null none
    = .ok dsW1 := rfl

/-- C9 witness: the single file `w1`. -/
theorem C9_witness :
    (TextDataset.mk? fsW (.str "w1") .null .null .null none
      = TextDataset.mk? fsW (.list ["w1"]) .null .null .null none) ∧
    ∀ i : Nat, i < dsW1.len → ∃ s, (dsW1.get_example (i : Int)).1
      = .ok (Example.single s) :=
  C9_single_string_equiv_singleton_list fsW "w1" .null .null .null none dsW1 dsW1_ok

instance exceptDecEq {e a : Type} [DecidableEq e] [DecidableEq a] :
    DecidableEq (Except e a) := fun x y =>
  match x, y with
  | .ok v, .ok w =>
    if h : v = w then isTrue (by rw [h]) else isFalse (by simp [h])
  | .error v, .error w =>
    if h : v = w then isTrue (by rw [h]) else isFalse (by simp [h])
  | .ok _, .error _ => isFalse (by simp)
  | .error _, .ok _ => isFalse (by simp)

/-- The C5 predicate: accepts exactly the records whose first-file decoded
line is the `a` line or the `c` line (readline keeps the trailing newline). -/
def pred5 : List String → Bool := fun ls =>
  ls.headD "" == "a\n" || ls.headD "" == "c\n"

/-- The C5 dataset: files with lines a,b,c and x,y,z plus the filter. -/
def ds5 : TextDataset :=
  match TextDataset.mk? fsW (.list ["w1", "w2"]) .null .null .null (some pred5) with
  | .ok ds => ds
  | .error _ => default

/-- C5 counterexample: the reader does select records 0 and 2 and has
length 2, but `get(0)` returns the decoded lines including their trailing
newline characters, so it is not the pair `("a", "x")` the claim states. -/
theorem C5_counterexample :
    TextDataset.mk? fsW (.list ["w1", "w2"]) .null .null .null (some pred5)
      = .ok ds5 ∧
    ds5.len = 2 ∧
    (ds5.get_example 0).1 ≠ .ok (.tuple ["a", "x"]) :=
  ⟨rfl, by decide, by decide⟩

/-- C5 amended: with the same files and predicate, `length()` is 2 and the
two visible records are the decoded lines with their newline terminators:
`get(0) = ("a\n", "x\n")` and `get(1) = ("c\n", "z\n")`. -/
theorem C5_amended_filter_correctness :
    ds5.len = 2 ∧
    (ds5.get_example 0).1 = .ok (.tuple ["a\n", "x\n"]) ∧
    (ds5.get_example 1).1 = .ok (.tuple ["c\n", "z\n"]) := by
  refine ⟨by decide, by decide, by decide⟩

theorem closeLoop_all (fps : List Handle) :
    ∀ fails, closeLoop fps fails = List.replicate fps.length true := by
  induction fps with
  | nil => intro fails; rfl
  | cons fp fps ih =>
    intro fails
    simp only [closeLoop]
    split <;> simp [ih, List.replicate_succ]

/-- C6: `open` twice equals `open` once; the state after `close` twice equals
the state after `close` once; `close` always discards the handles; and every
individual handle close is attempted regardless of which closes fail — one
failing handle never prevents closing the rest. -/
theorem C6_open_close_idempotent_swallow (fs : FileSys) (ds : TextDataset)
    (fails fails' : List Bool) (fps : List Handle)
    (hfps : ds._fps = some fps) :
    TextDataset._open fs (TextDataset._open fs ds) = TextDataset._open fs ds ∧
    (TextDataset._close fails ((TextDataset._close fails' ds).1)).1
      = (TextDataset._close fails' ds).1 ∧
    ((TextDataset._close fails ds).1)._fps = none ∧
    (TextDataset._close fails ds).2 = List.replicate fps.length true := by
  refine ⟨?_, ?_, ?_, ?_⟩
  · cases h : ds._fps <;> simp [TextDataset._open, h]
  · cases h : ds._fps <;> simp [TextDataset._close, h]
  · simp [TextDataset._close, hfps]
  · simp [TextDataset._close, hfps, closeLoop_all]

/-- C6 witness: the concrete dataset, with the first handle close failing. -/
theorem C6_witness :
    TextDataset._open fsW (TextDataset._open fsW dsW) = TextDataset._open fsW dsW ∧
    (TextDataset._close [true, false] ((TextDataset._close [] dsW).1)).1
      = (TextDataset._close [] dsW).1 ∧
    ((TextDataset._close [true, false] dsW).1)._fps = none ∧
    (TextDataset._close [true, false] dsW).2 = List.replicate
      [Handle.mk ['a', '\n', 'b', '\n', 'c', '\n'] 6,
       Handle.mk ['x', '\n', 'y', '\n', 'z', '\n'] 6].length true :=
  C6_open_close_idempotent_swallow fsW dsW [true, false] []
    [Handle.mk ['a', '\n', 'b', '\n', 'c', '\n'] 6,
     Handle.mk ['x', '\n', 'y', '\n', 'z', '\n'] 6] (by decide)

/-- C8 counterexample: immediately after construction — before any `get` —
the dataset already holds open handles (`_fps` is not `None`), so handles
are opened eagerly at construction, not lazily on first use. -/
theorem C8_counterexample :
    TextDataset.mk? fsW (.list ["w1", "w2"]) .null .null .null none = .ok dsW ∧
    dsW._fps ≠ none :=
  ⟨dsW_ok, by decide⟩

/-- C8 amended: handles are a runtime-only resource opened eagerly at
construction and again on restore; the pickled state excludes them (it is
exactly the persistent fields), and `close` discards them. -/
theorem C8_amended_handles_runtime_only (fs : FileSys) (pathsArg : PathsArg)
    (encoding errors newline : OptArg) (f? : Option (List String → Bool))
    (ds : TextDataset) (fails : List Bool)
    (hok : TextDataset.mk? fs pathsArg encoding errors newline f? = .ok ds) :
    ds._fps ≠ none ∧
    ds.getstate = ⟨ds._paths, ds._encoding, ds._errors, ds._newline,
      ds._bounds, ds._lines⟩ ∧
    ((TextDataset._close fails ds).1)._fps = none ∧
    (TextDataset.setstate fs fails ds ds.getstate)._fps ≠ none := by
  rcases mk?_ok_inv fs pathsArg encoding errors newline f? ds hok with
    ⟨hne, n, hcount, rfl⟩
  refine ⟨?_, rfl, ?_, ?_⟩
  · simp [alignedDataset]
  · simp [TextDataset._close, alignedDataset]
  · simp [TextDataset.setstate, TextDataset._open, TextDataset.getstate]

/-- C8 amended witness: the concrete two-file dataset. -/
theorem C8_amended_witness :
    dsW._fps ≠ none ∧
    dsW.getstate = ⟨dsW._paths, dsW._encoding, dsW._errors, dsW._newline,
      dsW._bounds, dsW._lines⟩ ∧
    ((TextDataset._close [] dsW).1)._fps = none ∧
    (TextDataset.setstate fsW [] dsW dsW.getstate)._fps ≠ none :=
  C8_amended_handles_runtime_only fsW (.list ["w1", "w2"]) .null .null .null
    none dsW [] dsW_ok

theorem map_readline_zip_seek (ln : Nat) :
    ∀ (fps fps' : List Handle) (bounds : List (List Nat)),
      fps.map Handle.content = fps'.map Handle.content →
      (List.zipWith (fun fp b => fp.seek (b.getD ln 0)) fps bounds).map
          (fun fp => fp.readline.1)
        = (List.zipWith (fun fp b => fp.seek (b.getD ln 0)) fps' bounds).map
          (fun fp => fp.readline.1) := by
  intro fps
  induction fps with
  | nil =>
    intro fps' bounds h
    have : fps' = [] := by simpa using h.symm
    subst this
    rfl
  | cons fp fps ih =>
    intro fps' bounds h
    cases fps' with
    | nil => simp at h
    | cons fp' t' =>
      cases bounds with
      | nil => rfl
      | cons b bs =>
        simp only [List.map_cons, List.cons.injEq] at h
        simp only [List.zipWith_cons_cons, List.map_cons, List.cons.injEq]
        exact ⟨by simp [Handle.seek, Handle.readline, h.1], ih t' bs h.2⟩

theorem get_example_fst_content_eq (dsA dsB : TextDataset) (idx : Int)
    (fpsA fpsB : List Handle)
    (hA : dsA._fps = some fpsA) (hB : dsB._fps = some fpsB)
    (hcontent : fpsA.map Handle.content = fpsB.map Handle.content)
    (hbounds : dsA._bounds = dsB._bounds) (hlines : dsA._lines = dsB._lines) :
    (dsA.get_example idx).1 = (dsB.get_example idx).1 := by
  simp only [TextDataset.get_example, hA, hB, hbounds, hlines]
  by_cases hrange : idx < 0 ∨ ((dsB._lines.length : Int) ≤ idx)
  · rw [if_pos hrange, if_pos hrange]
  · rw [if_neg hrange, if_neg hrange]
    simp only []
    congr 1
    congr 1
    exact map_readline_zip_seek _ fpsA fpsB dsB._bounds hcontent

/-- C4: restoring a dataset from its pickled state (`__getstate__` then
`__setstate__`, on any receiver object) yields identical `get` results at
every logical index, provided the underlying files are unmodified; and the
pickled state is exactly the persistent fields — it holds no file handles. -/
theorem C4_pickle_roundtrip (fs : FileSys) (fails : List Bool)
    (ds ds0 : TextDataset) (fps : List Handle)
    (hfps : ds._fps = some fps)
    (hcontent : fps.map Handle.content = ds._paths.map fs) :
    (∀ idx : Int, ((TextDataset.setstate fs fails ds0 ds.getstate).get_example idx).1
      = (ds.get_example idx).1) ∧
    ds.getstate = ⟨ds._paths, ds._encoding, ds._errors, ds._newline,
      ds._bounds, ds._lines⟩ := by
  refine ⟨?_, rfl⟩
  intro idx
  have hds' : TextDataset.setstate fs fails ds0 ds.getstate =
      { _paths := ds._paths, _encoding := ds._encoding, _errors := ds._errors,
        _newline := ds._newline,
        _fps := some (ds._paths.map fun p => Handle.mk (fs p) 0),
        _bounds := ds._bounds, _lines := ds._lines } := by
    simp [TextDataset.setstate, TextDataset.getstate, TextDataset._open]
  rw [hds']
  refine get_example_fst_content_eq _ ds idx
    (ds._paths.map fun p => Handle.mk (fs p) 0) fps rfl hfps ?_ rfl rfl
  rw [hcontent]
  simp [List.map_map, Function.comp]

/-- C4 witness: restore the concrete dataset from its own snapshot onto a
blank receiver. -/
theorem C4_witness :
    (∀ idx : Int, ((TextDataset.setstate fsW [] default dsW.getstate).get_example idx).1
      = (dsW.get_example idx).1) ∧
    dsW.getstate = ⟨dsW._paths, dsW._encoding, dsW._errors, dsW._newline,
      dsW._bounds, dsW._lines⟩ :=
  C4_pickle_roundtrip fsW [] dsW default
    [Handle.mk ['a', '\n', 'b', '\n', 'c', '\n'] 6,
     Handle.mk ['x', '\n', 'y', '\n', 'z', '\n'] 6] (by decide) (by decide)

theorem lineStart_lt_of_lt (cs : List Char) (i j : Nat)
    (hij : i < j) (hj : j ≤ countLines cs) : lineStart cs i < lineStart cs j := by
  induction j with
  | zero => omega
  | succ j ih =>
    have hstep : lineStart cs j < lineStart cs (j + 1) :=
      lineStart_lt_succ cs j (by omega)
    rcases Nat.lt_succ_iff_lt_or_eq.mp hij with h | h
    · exact Nat.lt_trans (ih h (by omega)) hstep
    · subst h; exact hstep

theorem boundsRow_pairwise (cs : List Char) (n : Nat) (hcount : countLines cs = n) :
    ((List.range (n + 1)).map (lineStart cs)).Pairwise (· < ·) := by
  rw [List.pairwise_map]
  refine (List.pairwise_lt_range (n + 1)).imp_of_mem ?_
  intro a b ha hb hab
  exact lineStart_lt_of_lt cs a b hab (by rw [hcount]; exact Nat.lt_succ_iff.mp (List.mem_range.mp hb))

/-- C7: after a successful construction there is a common physical line
count `n` such that: each offset table starts at 0, is strictly increasing,
and has length `n + 1` (one table per file, all of equal length); the
logical index is strictly increasing with length at most `n`; and all of
`get`, `open`, `close` and a snapshot/restore cycle leave `_bounds` and
`_lines` unchanged. -/
theorem C7_offset_and_index_invariants (fs : FileSys) (pathsArg : PathsArg)
    (encoding errors newline : OptArg) (f? : Option (List String → Bool))
    (ds ds0 : TextDataset) (fails : List Bool)
    (hok : TextDataset.mk? fs pathsArg encoding errors newline f? = .ok ds) :
    ∃ n, (∀ p ∈ ds._paths, countLines (fs p) = n) ∧
      ds._bounds.length = ds._paths.length ∧
      (∀ b ∈ ds._bounds, b.headD 1 = 0 ∧ b.length = n + 1 ∧ b.Pairwise (· < ·)) ∧
      ds._lines.Pairwise (· < ·) ∧ ds._lines.length ≤ n ∧
      (∀ idx : Int, (ds.get_example idx).2.1._bounds = ds._bounds ∧
        (ds.get_example idx).2.1._lines = ds._lines) ∧
      ((TextDataset._open fs ds)._bounds = ds._bounds ∧
        (TextDataset._open fs ds)._lines = ds._lines) ∧
      (((TextDataset._close fails ds).1)._bounds = ds._bounds ∧
        ((TextDataset._close fails ds).1)._lines = ds._lines) ∧
      ((TextDataset.setstate fs fails ds0 ds.getstate)._bounds = ds._bounds ∧
        (TextDataset.setstate fs fails ds0 ds.getstate)._lines = ds._lines) := by
  rcases mk?_ok_inv fs pathsArg encoding errors newline f? ds hok with
    ⟨hne, n, hcount, rfl⟩
  refine ⟨n, by simpa [alignedDataset] using hcount, by simp [alignedDataset], ?_, ?_, ?_,
    fun idx => ⟨(get_example_state_fields _ idx).2.2.2.2.1,
      (get_example_state_fields _ idx).2.2.2.2.2⟩,
    by simp [TextDataset._open, alignedDataset],
    by simp [TextDataset._close, alignedDataset],
    by simp [TextDataset.setstate, TextDataset.getstate, TextDataset._open]⟩
  · intro b hb
    simp only [alignedDataset, List.mem_map] at hb
    rcases hb with ⟨p, hp, rfl⟩
    refine ⟨?_, by simp, boundsRow_pairwise (fs p) n (hcount p hp)⟩
    rw [List.range_eq_range', List.range'_succ]
    simp [lineStart_zero]
  · cases f? with
    | none =>
      simpa [alignedDataset, Option.elim] using List.pairwise_lt_range n
    | some f =>
      simp only [alignedDataset, Option.elim]
      exact List.Pairwise.sublist (List.filter_sublist _) (List.pairwise_lt_range n)
  · cases f? with
    | none => simp [alignedDataset, Option.elim]
    | some f =>
      simp only [alignedDataset, Option.elim]
      calc (List.filter (fun i => f (recordAt (List.map fs (resolvedPaths pathsArg)) i))
            (List.range n)).length
          ≤ (List.range n).length := List.length_filter_le _ _
        _ = n := List.length_range n

/-- C7 witness: one offset table per file on the concrete dataset. -/
theorem C7_witness : dsW._bounds.length = dsW._paths.length := by
  obtain ⟨n, -, h, -⟩ := C7_offset_and_index_invariants fsW (.list ["w1", "w2"])
    .null .null .null none dsW default [] dsW_ok
  exact h
